import Mathlib

/-!
Verification development for zoomexport.py, a reader and aggregator of
Zoom CSV exports.  The embedding is shallow: each reader takes the cell
grid (or the csv-parsed data rows) of one file, so file discovery and
byte-level csv splitting are abstracted at the boundary, while all field
extraction, accumulation and aggregation logic is translated from the
source.  Machine floats are modelled by exact rationals; Python dicts by
association lists with first-match lookup (dict insertion order is list
order, as in Python 3.7+).
-/

namespace ZoomExport

/-- Numeric value of a nonempty all-digit character list. -/
def digitsVal? (l : List Char) : Option Nat :=
  if l.isEmpty || !(l.all Char.isDigit) then none
  else some (l.foldl (fun n c => 10 * n + (c.toNat - 48)) 0)

/-- Model of Python int() on plain integer literals (as applied to the
numeric cells of the reports). -/
def intVal? (s : String) : Option Int :=
  match s.data with
  | '-' :: rest => (digitsVal? rest).map (fun n => -(n : Int))
  | '+' :: rest => (digitsVal? rest).map (fun n => (n : Int))
  | l => (digitsVal? l).map (fun n => (n : Int))

/-- Value of an unsigned decimal literal, e.g. "85.5", as an exact rational. -/
def decimalVal? (l : List Char) : Option ℚ :=
  match l.splitOn '.' with
  | [ip] => (digitsVal? ip).map (fun n => (n : ℚ))
  | [ip, fp] =>
    match digitsVal? ip, digitsVal? fp with
    | some n, some f => some ((n : ℚ) + (f : ℚ) / ((10 : ℚ) ^ fp.length))
    | _, _ => none
  | _ => none

/-- Model of Python float() on plain decimal literals (as applied to the
rate-as-percentage cell of a performance report). -/
def parseDecimal? (s : String) : Option ℚ :=
  match s.data with
  | '-' :: rest => (decimalVal? rest).map (fun q => -q)
  | '+' :: rest => decimalVal? rest
  | l => decimalVal? l

/-- A parsed timestamp. -/
structure DateTime where
  year : Nat
  month : Nat
  day : Nat
  hour : Nat
  minute : Nat
  second : Nat
deriving DecidableEq

/-- Sort key for timestamps, strictly monotone in the calendar order as
long as fields are in their parsed ranges. -/
def dtKey (d : DateTime) : Nat :=
  ((((d.year * 13 + d.month) * 32 + d.day) * 24 + d.hour) * 60 + d.minute) * 60 + d.second

/-- Month number of a month-name abbreviation token. -/
def monthNum? (m : List Char) : Option Nat :=
  if m = ['J', 'a', 'n'] then some 1
  else if m = ['F', 'e', 'b'] then some 2
  else if m = ['M', 'a', 'r'] then some 3
  else if m = ['A', 'p', 'r'] then some 4
  else if m = ['M', 'a', 'y'] then some 5
  else if m = ['J', 'u', 'n'] then some 6
  else if m = ['J', 'u', 'l'] then some 7
  else if m = ['A', 'u', 'g'] then some 8
  else if m = ['S', 'e', 'p'] then some 9
  else if m = ['O', 'c', 't'] then some 10
  else if m = ['N', 'o', 'v'] then some 11
  else if m = ['D', 'e', 'c'] then some 12
  else none

/-- Day-of-month token as produced by splitting "Mon DD, YYYY ..." on
spaces: the digits carry the trailing comma. -/
def dayVal? (l : List Char) : Option Nat :=
  match l.splitOn ',' with
  | [d, []] => (digitsVal? d).bind (fun n => if 1 ≤ n ∧ n ≤ 31 then some n else none)
  | _ => none

/-- Model of strptime format "%b %d, %Y %H:%M:%S", the format applied to
poll-report response timestamps (zoomexport.py line 119). -/
def parse24? (s : String) : Option DateTime :=
  match s.data.splitOn ' ' with
  | [mon, dayT, yearT, timeT] =>
    match monthNum? mon, dayVal? dayT, digitsVal? yearT, timeT.splitOn ':' with
    | some m, some d, some y, [hT, miT, seT] =>
      match digitsVal? hT, digitsVal? miT, digitsVal? seT with
      | some h, some mi, some se =>
          if h ≤ 23 ∧ mi ≤ 59 ∧ se ≤ 59 then some ⟨y, m, d, h, mi, se⟩ else none
      | _, _, _ => none
    | _, _, _, _ => none
  | _ => none

/-- Model of strptime format "%b %d, %Y %I:%M %p", the format applied to
performance-report meeting timestamps (zoomexport.py line 53). -/
def parse12? (s : String) : Option DateTime :=
  match s.data.splitOn ' ' with
  | [mon, dayT, yearT, timeT, ampm] =>
    match monthNum? mon, dayVal? dayT, digitsVal? yearT, timeT.splitOn ':' with
    | some m, some d, some y, [hT, miT] =>
      match digitsVal? hT, digitsVal? miT with
      | some h12, some mi =>
        if 1 ≤ h12 ∧ h12 ≤ 12 ∧ mi ≤ 59 then
          if ampm = ['A', 'M'] then some ⟨y, m, d, h12 % 12, mi, 0⟩
          else if ampm = ['P', 'M'] then some ⟨y, m, d, h12 % 12 + 12, mi, 0⟩
          else none
        else none
      | _, _ => none
    | _, _, _, _ => none
  | _ => none

/-- Decimal digit character. -/
def digitChar (n : Nat) : Char := Char.ofNat (48 + n)

/-- Two-digit zero-padded rendering, as strftime %d / %m produce. -/
def pad2 (n : Nat) : String := String.mk [digitChar (n / 10 % 10), digitChar (n % 10)]

/-- strftime with the default date_format "%d.%m." (zoomexport.py line 15);
the caller-supplied format string is modelled at its default value. -/
def fmtDayMonth (d : DateTime) : String := pad2 d.day ++ "." ++ pad2 d.month ++ "."

/-- Model of the Python .replace of dash by the empty string, applied to
raw meeting identifiers (zoomexport.py lines 41, 94, 162). -/
def stripDashes (s : String) : String := String.mk (s.data.filter (fun c => c != '-'))

/-- Cell access prdata[i][j]; none models an IndexError. -/
def cell? (g : List (List String)) (i j : Nat) : Option String :=
  (g.get? i).bind (fun row => row.get? j)

/-- One row of the performance corpus (spec name MeetingRecord); the
columns of the single-row frame built at zoomexport.py lines 40-54. -/
structure MeetingRecord where
  topic : String
  meeting_id : String
  datetime : DateTime
  duration : Int
  registered : Int
  attended : Int
  attendance_rate : ℚ
  questions : Int
  date_str : String
deriving DecidableEq

/-- read_performance_report (zoomexport.py lines 15-55) on the csv cell
grid of one file; none models IndexError, int() / float() failures and
to_datetime failures, which all abort the Python call. -/
def read_performance_report (g : List (List String)) : Option MeetingRecord := do
  let topic ← cell? g 3 0
  let midRaw ← cell? g 3 1
  let dtS ← cell? g 3 2
  let durS ← cell? g 3 3
  let regS ← cell? g 6 0
  let attS ← cell? g 6 1
  let rateS ← cell? g 6 2
  let quS ← cell? g 8 0
  let duration ← intVal? durS
  let registered ← intVal? regS
  let attended ← intVal? attS
  let pct ← parseDecimal? rateS
  let questions ← intVal? quS
  let dt ← parse12? dtS
  some ⟨topic, stripDashes midRaw, dt, duration, registered, attended,
        pct / 100, questions, fmtDayMonth dt⟩

/-- Column labels of the performance corpus frame (zoomexport.py lines 67-69). -/
def perfCols : List String :=
  ["topic", "meeting_id", "datetime", "duration", "registered", "attended",
   "attendance_rate", "questions", "date_str"]

/-- Sort relation of the performance corpus: datetime ascending (line 75). -/
def mrLe (x y : MeetingRecord) : Prop := dtKey x.datetime ≤ dtKey y.datetime

instance : DecidableRel mrLe := fun x y => by unfold mrLe; infer_instance

/-- Reads every file of the folder, propagating the first failure, as the
Python loop over glob results does. -/
def collectPerf : List (List (List String)) → Option (List MeetingRecord)
  | [] => some []
  | g :: gs =>
    match read_performance_report g, collectPerf gs with
    | some r, some rs => some (r :: rs)
    | _, _ => none

/-- A pandas frame of meeting records: column labels plus rows. -/
structure PerfTable where
  cols : List String
  rows : List MeetingRecord
deriving DecidableEq

/-- read_all_performance_reports (zoomexport.py lines 58-76) on the list
of cell grids the glob produced, in enumeration order. -/
def read_all_performance_reports (files : List (List (List String))) : Option PerfTable :=
  (collectPerf files).map (fun rs => ⟨perfCols, List.insertionSort mrLe rs⟩)

/-- One long-format poll observation (spec name PollResponse); the columns
of the frame built at zoomexport.py lines 107-117. -/
structure PollResponse where
  meeting_id : String
  row_no : Int
  name : String
  email : String
  datetime : DateTime
  question : String
  answer : String
deriving DecidableEq

/-- The loop indices q of range(0, num_questions, 2) with
num_questions = len(line) - 5 (zoomexport.py lines 102-103 and 171-172);
a negative Python num_questions and the Nat-truncated one both give an
empty range. -/
def pairIndices (line : List String) : List Nat :=
  (List.range ((line.length - 5 + 1) / 2)).map (fun i => 2 * i)

/-- The (line[4+q], line[4+q+1]) question/answer cell pairs read by both
poll readers; the getD default is never used on the indices of
pairIndices (proved below for claim C10). -/
def rowPairs (line : List String) : List (String × String) :=
  (pairIndices line).map (fun q => (line.getD (4 + q) "", line.getD (4 + q + 1) ""))

/-- Recursive characterization of rowPairs: consecutive two-cell blocks of
the row tail after the four fixed fields. -/
def pairsFromTail : List String → List (String × String)
  | q :: a :: rest => (q, a) :: pairsFromTail rest
  | _ => []

/-- Question texts mentioned by a data row. -/
def rowQuestions (line : List String) : List String := (rowPairs line).map Prod.fst

/-- Flat cell encoding of a list of question/answer pairs. -/
def flatPairs (pl : List (String × String)) : List String :=
  pl.flatMap (fun p => [p.1, p.2])

/-- The records one data row contributes in read_poll_report
(zoomexport.py lines 101-114): one per question/answer pair, all sharing
the four fixed fields.  The row fields are only converted (int on field 0,
datetime on field 3) when at least one pair is present, matching the
Python control flow; none models the resulting exceptions. -/
def rowResponses (mid : String) (line : List String) : Option (List PollResponse) :=
  match rowPairs line with
  | [] => some []
  | ps =>
    match intVal? (line.getD 0 ""), parse24? (line.getD 3 "") with
    | some n, some dt =>
        some (ps.map (fun p => ⟨mid, n, line.getD 1 "", line.getD 2 "", dt, p.1, p.2⟩))
    | _, _ => none

/-- Concatenation of the per-row records over the data rows of one file. -/
def collectRows (mid : String) : List (List String) → Option (List PollResponse)
  | [] => some []
  | r :: rs =>
    match rowResponses mid r, collectRows mid rs with
    | some x, some xs => some (x ++ xs)
    | _, _ => none

/-- read_poll_report (zoomexport.py lines 79-120): the meeting-id cell of
header line 3 is passed in raw (its extraction is file glue) and the data
rows are the csv-parsed lines from index 6 on. -/
def read_poll_report (midRaw : String) (rows : List (List String)) :
    Option (List PollResponse) :=
  collectRows (stripDashes midRaw) rows

/-- Column labels of the long-format poll frame (zoomexport.py line 116). -/
def pollCols : List String :=
  ["meeting_id", "row_no", "name", "email", "datetime", "question", "answer"]

/-- Code-point lexicographic comparison of character lists: the string
order Python uses when pandas sorts object columns. -/
def charListLt : List Char → List Char → Bool
  | [], [] => false
  | [], _ :: _ => true
  | _ :: _, [] => false
  | a :: as, b :: bs => if a < b then true else if b < a then false else charListLt as bs

/-- Lexicographic (question, answer) weak order used by the poll corpus
sorts (zoomexport.py lines 138 and 216). -/
def qaLe (x y : String × String) : Prop :=
  charListLt x.1.data y.1.data = true ∨
    (x.1 = y.1 ∧ (charListLt x.2.data y.2.data = true ∨ x.2 = y.2))

instance : DecidableRel qaLe := fun x y => by unfold qaLe; infer_instance

/-- Sort relation of the long-format poll corpus. -/
def prLe (x y : PollResponse) : Prop := qaLe (x.question, x.answer) (y.question, y.answer)

instance : DecidableRel prLe := fun x y => by unfold prLe; infer_instance

/-- Per-file reads of read_all_poll_reports, propagating failures. -/
def collectPolls : List (String × List (List String)) → Option (List PollResponse)
  | [] => some []
  | f :: fs =>
    match read_poll_report f.1 f.2, collectPolls fs with
    | some x, some xs => some (x ++ xs)
    | _, _ => none

/-- A pandas frame of poll responses: column labels plus rows. -/
structure PollTable where
  cols : List String
  rows : List PollResponse
deriving DecidableEq

/-- read_all_poll_reports (zoomexport.py lines 123-139) on the list of
(raw meeting-id cell, data rows) files the glob produced. -/
def read_all_poll_reports (files : List (String × List (List String))) : Option PollTable :=
  (collectPolls files).map (fun rs => ⟨pollCols, List.insertionSort prLe rs⟩)

/-- A Python dict from text key to a running count. -/
abbrev CountMap := List (String × Nat)

/-- The poll dict of read_poll_report_counts: question text to an inner
dict from answer text to a running count. -/
abbrev QuestionCounts := List (String × CountMap)

/-- Dict counter increment d[k] += 1 with creation at 1, first-match dict
semantics (zoomexport.py lines 178-181 for the inner dict and 186-189 for
the denominator dict N). -/
def bumpN : CountMap → String → CountMap
  | [], q => [(q, 1)]
  | (k, v) :: rest, q => if k = q then (k, v + 1) :: rest else (k, v) :: bumpN rest q

/-- poll[q_text][a_text] increment with creation of the inner dict
(zoomexport.py lines 176-181). -/
def bumpPoll : QuestionCounts → String → String → QuestionCounts
  | [], q, a => [(q, [(a, 1)])]
  | (k, m) :: rest, q, a =>
      if k = q then (k, bumpN m a) :: rest else (k, m) :: bumpPoll rest q a

/-- Accumulator step of one question/answer pair: bump the (question,
answer) count and the per-question denominator (lines 173-189). -/
def stepPair (st : QuestionCounts × CountMap) (p : String × String) :
    QuestionCounts × CountMap :=
  (bumpPoll st.1 p.1 p.2, bumpN st.2 p.1)

/-- Accumulator pass over the pairs of one data row (lines 170-189). -/
def processRow (st : QuestionCounts × CountMap) (line : List String) :
    QuestionCounts × CountMap :=
  (rowPairs line).foldl stepPair st

/-- Final (poll, N) accumulator state after all data rows. -/
def pollState (rows : List (List String)) : QuestionCounts × CountMap :=
  rows.foldl processRow ([], [])

/-- Dict lookup N[q] with first-match semantics; the default 0 is never
hit on keys of the poll dict. -/
def lookupN : CountMap → String → Nat
  | [], _ => 0
  | (k, v) :: rest, q => if k = q then v else lookupN rest q

/-- Sum of the counter values of an answer dict. -/
def innerSum (m : CountMap) : Nat := (m.map Prod.snd).sum

/-- Sum of the answer counters stored under question q in the poll dict. -/
def pollSum : QuestionCounts → String → Nat
  | [], _ => 0
  | (k, m) :: rest, q => if k = q then innerSum m else pollSum rest q

/-- One row of the aggregated poll corpus (spec name PollAnswerCount); the
columns of the frame built at zoomexport.py lines 192-198. -/
structure PollAnswerCount where
  meeting_id : String
  question : String
  answer : String
  count : Nat
  prop : ℚ
  responses : Nat
deriving DecidableEq

/-- One output row of read_poll_report_counts (zoomexport.py line 195):
[meeting_id, q, a, poll[q][a], poll[q][a] / N[q], N[q]]. -/
def mkRow (mid : String) (nq : Nat) (q : String) (ac : String × Nat) : PollAnswerCount :=
  ⟨mid, q, ac.1, ac.2, (ac.2 : ℚ) / (nq : ℚ), nq⟩

/-- Column labels of the aggregated poll frame (lines 196 and 210). -/
def countsCols : List String :=
  ["meeting_id", "question", "answer", "count", "prop", "responses"]

/-- read_poll_report_counts (zoomexport.py lines 142-198): the meeting-id
cell of header line 3 is passed in raw and the data rows are the
csv-parsed lines from index 6 on; the double loop over dict keys of
lines 193-195 becomes flatMap/map over the association lists. -/
def read_poll_report_counts (midRaw : String) (rows : List (List String)) :
    List PollAnswerCount :=
  (pollState rows).1.flatMap (fun qm =>
    qm.2.map (mkRow (stripDashes midRaw) (lookupN (pollState rows).2 qm.1) qm.1))

/-- The output rows of one (meeting_id, question) group. -/
def groupRows (t : List PollAnswerCount) (mid q : String) : List PollAnswerCount :=
  t.filter (fun r => r.meeting_id == mid && r.question == q)

/-- Sum of the count column over one (meeting_id, question) group. -/
def groupCountSum (t : List PollAnswerCount) (mid q : String) : Nat :=
  ((groupRows t mid q).map (fun r => r.count)).sum

/-- Sum of the prop column over one (meeting_id, question) group. -/
def groupPropSum (t : List PollAnswerCount) (mid q : String) : ℚ :=
  ((groupRows t mid q).map (fun r => r.prop)).sum

/-- Sort relation of the aggregated poll corpus: (question, answer)
ascending (zoomexport.py line 216). -/
def pacLe (x y : PollAnswerCount) : Prop := qaLe (x.question, x.answer) (y.question, y.answer)

instance : DecidableRel pacLe := fun x y => by unfold pacLe; infer_instance

/-- A pandas frame of aggregated poll counts: column labels plus rows. -/
structure CountsTable where
  cols : List String
  rows : List PollAnswerCount
deriving DecidableEq

/-- read_all_poll_report_counts (zoomexport.py lines 201-217) on the list
of (raw meeting-id cell, data rows) files the glob produced, in
enumeration order: per-file frames are concatenated, then sorted. -/
def read_all_poll_report_counts (files : List (String × List (List String))) : CountsTable :=
  ⟨countsCols,
   List.insertionSort pacLe (files.flatMap (fun f => read_poll_report_counts f.1 f.2))⟩

/-- First-occurrence deduplication, as pandas Series.unique performs. -/
def firstUniques (seen : List String) : List String → List String
  | [] => []
  | x :: xs => if x ∈ seen then firstUniques seen xs else x :: firstUniques (x :: seen) xs

/-- The list a of distinct answers observed for one question, in first
occurrence order (zoomexport.py lines 274, 278, 316, 320). -/
def uniqueAnswers (polldata : List PollAnswerCount) (question : String) : List String :=
  firstUniques [] ((polldata.filter (fun r => r.question == question)).map (fun r => r.answer))

/-- Python repr of one string inside str(a). -/
def quoteItem (s : String) : String := "\x27" ++ s ++ "\x27"

/-- Model of Python str(a) for a list of strings. -/
def pyStrList : List String → String
  | [] => "[]"
  | x :: xs =>
      "[" ++ quoteItem x ++ (xs.foldl (fun acc y => acc ++ ", " ++ quoteItem y) "") ++ "]"

/-- The ValueError message raised at zoomexport.py lines 333-334. -/
def answerSortError (question : String) (a : List String) : String :=
  "All answers for a given question must be included in answer_sort:\nQuestion: " ++
    question ++ "\nAnswers: " ++ pyStrList a

/-- Observable outcome of a plot call: either the answer series handed to
the rendering calls, in stacking order, or a raised ValueError. -/
inductive PlotOutcome
  | renders (series : List String)
  | raises (msg : String)
deriving DecidableEq

/-- plot_question_bokeh (zoomexport.py lines 257-296): the answer series
is a = unique answers, replaced by answer_sort when given, with no
validation; rendering itself is opaque and the prop/count toggle does not
affect the series selection. -/
def plot_question_bokeh (polldata : List PollAnswerCount) (question : String)
    (answer_sort : Option (List String)) : PlotOutcome :=
  let a := uniqueAnswers polldata question
  match answer_sort with
  | none => PlotOutcome.renders a
  | some s => PlotOutcome.renders s

/-- plot_question_stacked_bokeh (zoomexport.py lines 299-353): if a given
answer_sort omits any observed answer, a ValueError is raised before the
figure is created (the raise at lines 330-335 precedes the figure and
vbar_stack calls at lines 341-342). -/
def plot_question_stacked_bokeh (polldata : List PollAnswerCount) (question : String)
    (answer_sort : Option (List String)) : PlotOutcome :=
  let a := uniqueAnswers polldata question
  match answer_sort with
  | none => PlotOutcome.renders a
  | some s =>
      if a.all (fun v => decide (v ∈ s)) then PlotOutcome.renders s
      else PlotOutcome.raises (answerSortError question a)

/-- Example poll data rows: two respondents answer Q1 (Yes / No), only the
first also answers Q2 (X).  This is the worked example of the spec. -/
def exRows : List (List String) :=
  [["1", "Alice", "alice@example.com", "Jan 01, 2021 10:00:00", "Q1", "Yes", "Q2", "X", ""],
   ["2", "Bob", "bob@example.com", "Jan 01, 2021 10:00:05", "Q1", "No", ""]]

/-- A data row mentioning the same question text twice. -/
def dupQuestionRow : List String :=
  ["1", "Ann", "ann@example.com", "Jan 01, 2021 10:00:00", "Q1", "A", "Q1", "B", ""]

/-- A single one-pair data row (question Q1, answer Yes). -/
def oneRow : List String :=
  ["1", "Ann", "ann@example.com", "Jan 01, 2021 10:00:00", "Q1", "Yes", ""]

/-- Aggregated poll data whose question Q1 has the two answers A and B. -/
def exPlotData : List PollAnswerCount :=
  [mkRow "1" 2 "Q1" ("A", 1), mkRow "1" 2 "Q1" ("B", 1)]

/-- A single one-pair data row with a different (question, answer) key. -/
def rowQ2 : List String :=
  ["1", "Bob", "bob@example.com", "Jan 01, 2021 10:00:00", "Q2", "No", ""]

/-- A performance-report grid whose attended cell exceeds its registered
cell, with the rate cell at 150 (the value Zoom would export for it). -/
def perfGridBad : List (List String) :=
  [[""], [""], [""],
   ["Topic", "123-456-789", "Jan 05, 2021 10:30 AM", "60"],
   [""], [""],
   ["10", "50", "150"],
   [""],
   ["3"]]

/-- A well-formed performance-report grid with rate cell 50. -/
def perfGridOk : List (List String) :=
  [[""], [""], [""],
   ["Topic", "123-456-789", "Jan 05, 2021 10:30 AM", "60"],
   [""], [""],
   ["100", "50", "50"],
   [""],
   ["3"]]

/-- A second well-formed performance-report grid, one day later. -/
def perfGridOk2 : List (List String) :=
  [[""], [""], [""],
   ["Topic", "123-456-789", "Jan 06, 2021 10:30 AM", "60"],
   [""], [""],
   ["100", "50", "50"],
   [""],
   ["3"]]

/-- Well-formedness of the (poll, N) accumulator: answer-count sums agree
with the denominator dict, poll keys are distinct, and all stored counts
are positive. -/
def stInv (st : QuestionCounts × CountMap) : Prop :=
  (∀ q, pollSum st.1 q = lookupN st.2 q) ∧
  (st.1.map Prod.fst).Nodup ∧
  (∀ qm ∈ st.1, ∀ ac ∈ qm.2, 1 ≤ ac.2)

/-! ### Helper lemmas on the pair extraction -/

theorem getD_drop : ∀ (l : List String) (n i : Nat), (l.drop n).getD i "" = l.getD (n + i) ""
  | _, 0, _ => by simp
  | [], _ + 1, _ => by simp
  | x :: xs, n + 1, i => by
    simp only [List.drop_succ_cons]
    rw [getD_drop xs n i, show n + 1 + i = n + i + 1 from by omega, List.getD_cons_succ]

theorem pairsTail_eq : ∀ t : List String,
    (List.range (t.length / 2)).map (fun i => (t.getD (2 * i) "", t.getD (2 * i + 1) "")) =
      pairsFromTail t
  | [] => by simp [pairsFromTail]
  | [x] => by simp [pairsFromTail]
  | x :: y :: rest => by
    have ih := pairsTail_eq rest
    have hlen : (x :: y :: rest).length / 2 = rest.length / 2 + 1 := by
      simp only [List.length_cons]
      omega
    rw [hlen, List.range_succ_eq_map, List.map_cons, List.map_map]
    unfold pairsFromTail
    rw [← ih]
    congr 1

/-- rowPairs reads exactly the consecutive two-cell blocks after the four
fixed fields. -/
theorem rowPairs_eq (line : List String) : rowPairs line = pairsFromTail (line.drop 4) := by
  unfold rowPairs pairIndices
  rw [List.map_map]
  have harith : (line.length - 5 + 1) / 2 = (line.drop 4).length / 2 := by
    rw [List.length_drop]
    omega
  rw [harith, ← pairsTail_eq (line.drop 4)]
  apply List.map_congr_left
  intro i _
  simp only [Function.comp_apply]
  rw [getD_drop, getD_drop]
  rfl

theorem pairsFromTail_flat : ∀ pl : List (String × String), pairsFromTail (flatPairs pl) = pl
  | [] => rfl
  | p :: pl => by
    show pairsFromTail (p.1 :: p.2 :: flatPairs pl) = p :: pl
    unfold pairsFromTail
    rw [pairsFromTail_flat pl]

theorem pairsFromTail_flat_trailing : ∀ pl : List (String × String),
    pairsFromTail (flatPairs pl ++ [""]) = pl
  | [] => rfl
  | p :: pl => by
    show pairsFromTail (p.1 :: p.2 :: (flatPairs pl ++ [""])) = p :: pl
    unfold pairsFromTail
    rw [pairsFromTail_flat_trailing pl]

theorem rowPairs_flat_trailing (f0 f1 f2 f3 : String) (pl : List (String × String)) :
    rowPairs ([f0, f1, f2, f3] ++ flatPairs pl ++ [""]) = pl := by
  rw [rowPairs_eq]
  show pairsFromTail (flatPairs pl ++ [""]) = pl
  exact pairsFromTail_flat_trailing pl

theorem rowPairs_flat (f0 f1 f2 f3 : String) (pl : List (String × String)) :
    rowPairs ([f0, f1, f2, f3] ++ flatPairs pl) = pl := by
  rw [rowPairs_eq]
  show pairsFromTail (flatPairs pl) = pl
  exact pairsFromTail_flat pl

/-! ### Helper lemmas on skipping pair-free rows -/

theorem rowResponses_nil {line : List String} (mid : String) (h : rowPairs line = []) :
    rowResponses mid line = some [] := by
  unfold rowResponses
  rw [h]

theorem processRow_nil {line : List String} (st : QuestionCounts × CountMap)
    (h : rowPairs line = []) : processRow st line = st := by
  unfold processRow
  rw [h]
  rfl

theorem collectRows_skip {line : List String} (mid : String) (h : rowPairs line = [])
    (pre post : List (List String)) :
    collectRows mid (pre ++ line :: post) = collectRows mid (pre ++ post) := by
  induction pre with
  | nil =>
    show collectRows mid (line :: post) = collectRows mid post
    have e1 : collectRows mid (line :: post) =
        match rowResponses mid line, collectRows mid post with
        | some x, some xs => some (x ++ xs)
        | _, _ => none := rfl
    rw [e1, rowResponses_nil mid h]
    cases hc : collectRows mid post with
    | none => rfl
    | some xs => simp
  | cons r pre ih =>
    show collectRows mid (r :: (pre ++ line :: post)) = collectRows mid (r :: (pre ++ post))
    have e1 : collectRows mid (r :: (pre ++ line :: post)) =
        match rowResponses mid r, collectRows mid (pre ++ line :: post) with
        | some x, some xs => some (x ++ xs)
        | _, _ => none := rfl
    have e2 : collectRows mid (r :: (pre ++ post)) =
        match rowResponses mid r, collectRows mid (pre ++ post) with
        | some x, some xs => some (x ++ xs)
        | _, _ => none := rfl
    rw [e1, e2, ih]

theorem pollState_skip {line : List String} (h : rowPairs line = [])
    (pre post : List (List String)) :
    (pre ++ line :: post).foldl processRow ([], []) = (pre ++ post).foldl processRow ([], []) := by
  rw [List.foldl_append, List.foldl_append, List.foldl_cons, processRow_nil _ h]

/-! ### Claim theorems: poll parsing shape -/

/-- Claim C3: the two-respondent example file (both answer Q1 with
Yes / No, only the first also answers Q2 with X) aggregates to exactly
Q1 with Yes count 1 responses 2 prop one half, No count 1 responses 2
prop one half, and Q2 with X count 1 responses 1 prop 1. -/
theorem claim_C3 :
    read_poll_report_counts "1" exRows =
      [mkRow "1" 2 "Q1" ("Yes", 1), mkRow "1" 2 "Q1" ("No", 1), mkRow "1" 1 "Q2" ("X", 1)] ∧
    mkRow "1" 2 "Q1" ("Yes", 1) = ⟨"1", "Q1", "Yes", 1, 1 / 2, 2⟩ ∧
    mkRow "1" 2 "Q1" ("No", 1) = ⟨"1", "Q1", "No", 1, 1 / 2, 2⟩ ∧
    mkRow "1" 1 "Q2" ("X", 1) = ⟨"1", "Q2", "X", 1, 1, 1⟩ := by
  refine ⟨rfl, ?_, ?_, ?_⟩ <;> norm_num [mkRow]

/-- Claim C5: a data row with zero question/answer pairs contributes no
records in read_poll_report and read_poll_report_counts and raises no
error, wherever it occurs among the data rows. -/
theorem claim_C5 (midRaw : String) (line : List String) (h : rowPairs line = [])
    (pre post : List (List String)) :
    read_poll_report midRaw (pre ++ line :: post) = read_poll_report midRaw (pre ++ post) ∧
    read_poll_report_counts midRaw (pre ++ line :: post) =
      read_poll_report_counts midRaw (pre ++ post) ∧
    read_poll_report midRaw [line] = some [] := by
  refine ⟨collectRows_skip _ h pre post, ?_, ?_⟩
  · unfold read_poll_report_counts pollState
    rw [pollState_skip h pre post]
  · show collectRows (stripDashes midRaw) [line] = some []
    unfold collectRows
    rw [rowResponses_nil _ h]
    rfl

theorem claim_C5_witness :
    rowPairs ["1", "Ann", "ann@example.com", "Jan 01, 2021 10:00:00", ""] = [] ∧
    read_poll_report "9" [["1", "Ann", "ann@example.com", "Jan 01, 2021 10:00:00", ""]] =
      some [] := by
  have h : rowPairs ["1", "Ann", "ann@example.com", "Jan 01, 2021 10:00:00", ""] = [] := by
    decide
  exact ⟨h, (claim_C5 "9" _ h [] []).2.2⟩

/-- Claim C10: a data row whose trailing empty field is absent still
yields exactly its question/answer pairs: the pair extraction returns all
N pairs, every index the loop touches is in range, and both poll readers
give the same result as on the well-formed row with the trailing empty
field present. -/
theorem claim_C10 (midRaw f0 f1 f2 f3 : String) (pl : List (String × String))
    (rows : List (List String)) :
    rowPairs ([f0, f1, f2, f3] ++ flatPairs pl) = pl ∧
    (∀ i ∈ pairIndices ([f0, f1, f2, f3] ++ flatPairs pl),
      4 + i + 1 < ([f0, f1, f2, f3] ++ flatPairs pl).length) ∧
    read_poll_report midRaw (([f0, f1, f2, f3] ++ flatPairs pl) :: rows) =
      read_poll_report midRaw (([f0, f1, f2, f3] ++ flatPairs pl ++ [""]) :: rows) ∧
    read_poll_report_counts midRaw (([f0, f1, f2, f3] ++ flatPairs pl) :: rows) =
      read_poll_report_counts midRaw (([f0, f1, f2, f3] ++ flatPairs pl ++ [""]) :: rows) := by
  have hpairs : rowPairs ([f0, f1, f2, f3] ++ flatPairs pl) = pl := rowPairs_flat f0 f1 f2 f3 pl
  have hpairsT : rowPairs ([f0, f1, f2, f3] ++ flatPairs pl ++ [""]) = pl :=
    rowPairs_flat_trailing f0 f1 f2 f3 pl
  have hresp : rowResponses (stripDashes midRaw) ([f0, f1, f2, f3] ++ flatPairs pl) =
      rowResponses (stripDashes midRaw) ([f0, f1, f2, f3] ++ flatPairs pl ++ [""]) := by
    unfold rowResponses
    rw [hpairs, hpairsT]
    cases pl with
    | nil => rfl
    | cons p pl => rfl
  have hproc : ∀ st, processRow st ([f0, f1, f2, f3] ++ flatPairs pl) =
      processRow st ([f0, f1, f2, f3] ++ flatPairs pl ++ [""]) := by
    intro st
    unfold processRow
    rw [hpairs, hpairsT]
  refine ⟨hpairs, ?_, ?_, ?_⟩
  · intro i hi
    unfold pairIndices at hi
    simp only [List.mem_map, List.mem_range] at hi
    obtain ⟨j, hj, rfl⟩ := hi
    omega
  · show collectRows _ _ = collectRows _ _
    unfold collectRows
    rw [hresp]
  · unfold read_poll_report_counts pollState
    rw [List.foldl_cons, List.foldl_cons, hproc]

theorem claim_C10_witness :
    read_poll_report "9" [["1", "Ann", "ann@example.com", "Jan 01, 2021 10:00:00", "Q1", "Yes"]] =
      read_poll_report "9"
        [["1", "Ann", "ann@example.com", "Jan 01, 2021 10:00:00", "Q1", "Yes", ""]] ∧
    rowPairs ["1", "Ann", "ann@example.com", "Jan 01, 2021 10:00:00", "Q1", "Yes"] =
      [("Q1", "Yes")] := by
  have h := claim_C10 "9" "1" "Ann" "ann@example.com" "Jan 01, 2021 10:00:00"
    [("Q1", "Yes")] []
  exact ⟨h.2.2.1, h.1⟩

/-- Claim C4: a data row of the four fixed fields, N question/answer
pairs and the trailing empty field yields exactly N PollResponse records,
one per pair, each carrying the shared row number, name, email and
datetime of the row. -/
theorem claim_C4 (midRaw f0 f1 f2 f3 : String) (pl : List (String × String)) (n : Int)
    (dt : DateTime) (hn : intVal? f0 = some n) (hdt : parse24? f3 = some dt) :
    read_poll_report midRaw [[f0, f1, f2, f3] ++ flatPairs pl ++ [""]] =
      some (pl.map (fun p =>
        (⟨stripDashes midRaw, n, f1, f2, dt, p.1, p.2⟩ : PollResponse))) ∧
    (pl.map (fun p =>
      (⟨stripDashes midRaw, n, f1, f2, dt, p.1, p.2⟩ : PollResponse))).length = pl.length := by
  refine ⟨?_, List.length_map _ _⟩
  show collectRows _ _ = _
  unfold collectRows
  unfold rowResponses
  rw [rowPairs_flat_trailing f0 f1 f2 f3 pl]
  cases pl with
  | nil => rfl
  | cons p pl =>
    have h0 : ([f0, f1, f2, f3] ++ flatPairs (p :: pl) ++ [""]).getD 0 "" = f0 := rfl
    have h3 : ([f0, f1, f2, f3] ++ flatPairs (p :: pl) ++ [""]).getD 3 "" = f3 := rfl
    have hnil : collectRows (stripDashes midRaw) [] = some [] := rfl
    rw [h0, h3, hn, hdt, hnil]
    simp

theorem claim_C4_witness :
    read_poll_report "12-3"
        [["7", "Ann", "ann@example.com", "Jan 02, 2021 08:30:00", "Q1", "Yes", "Q2", "No", ""]] =
      some [⟨"123", 7, "Ann", "ann@example.com", ⟨2021, 1, 2, 8, 30, 0⟩, "Q1", "Yes"⟩,
            ⟨"123", 7, "Ann", "ann@example.com", ⟨2021, 1, 2, 8, 30, 0⟩, "Q2", "No"⟩] := by
  have h := (claim_C4 "12-3" "7" "Ann" "ann@example.com" "Jan 02, 2021 08:30:00"
    [("Q1", "Yes"), ("Q2", "No")] 7 ⟨2021, 1, 2, 8, 30, 0⟩ (by decide) (by decide)).1
  exact h

/-! ### Generic list helpers -/

theorem flatMap_congr {α β : Type} {l : List α} {f g : α → List β}
    (h : ∀ x ∈ l, f x = g x) : l.flatMap f = l.flatMap g := by
  induction l with
  | nil => rfl
  | cons x l ih =>
    rw [List.flatMap_cons, List.flatMap_cons, h x (List.mem_cons_self x l),
        ih (fun y hy => h y (List.mem_cons_of_mem x hy))]

theorem filter_flatMap {α β : Type} (l : List α) (f : α → List β) (p : β → Bool) :
    (l.flatMap f).filter p = l.flatMap (fun x => (f x).filter p) := by
  induction l with
  | nil => rfl
  | cons x l ih => rw [List.flatMap_cons, List.flatMap_cons, List.filter_append, ih]

theorem flatMap_nil {α β : Type} {l : List α} {f : α → List β}
    (h : ∀ x ∈ l, f x = []) : l.flatMap f = [] := by
  induction l with
  | nil => rfl
  | cons x l ih =>
    rw [List.flatMap_cons, h x (List.mem_cons_self x l), List.nil_append,
        ih (fun y hy => h y (List.mem_cons_of_mem x hy))]

theorem foldl_pres {σ α : Type} (P : σ → Prop) (f : σ → α → σ)
    (hf : ∀ s a, P s → P (f s a)) : ∀ (l : List α) (s : σ), P s → P (l.foldl f s)
  | [], _, h => h
  | a :: l, s, h => foldl_pres P f hf l (f s a) (hf s a h)

theorem countP_eq_one_of_nodup {l : List String} {q : String} (hnd : l.Nodup) (hq : q ∈ l) :
    l.countP (fun s => s == q) = 1 := by
  induction l with
  | nil => cases hq
  | cons x l ih =>
    rw [List.countP_cons]
    rcases List.mem_cons.mp hq with rfl | hmem
    · have hx : q ∉ l := (List.nodup_cons.mp hnd).1
      have hz : l.countP (fun s => s == q) = 0 := by
        rw [List.countP_eq_zero]
        intro a ha hbeq
        exact hx ((beq_iff_eq.mp hbeq) ▸ ha)
      simp [hz]
    · have hx : x ≠ q := fun e => (List.nodup_cons.mp hnd).1 (e ▸ hmem)
      rw [ih (List.nodup_cons.mp hnd).2 hmem]
      simp [hx]

theorem countP_eq_zero_of_not_mem {l : List String} {q : String} (hq : q ∉ l) :
    l.countP (fun s => s == q) = 0 := by
  rw [List.countP_eq_zero]
  intro a ha hbeq
  exact hq ((beq_iff_eq.mp hbeq) ▸ ha)

/-! ### The accumulator state of read_poll_report_counts -/

theorem snd_foldl_stepPair : ∀ (ps : List (String × String)) (st : QuestionCounts × CountMap),
    (ps.foldl stepPair st).2 = ps.foldl (fun nm p => bumpN nm p.1) st.2
  | [], _ => rfl
  | p :: ps, st => by
    rw [List.foldl_cons, List.foldl_cons]
    exact snd_foldl_stepPair ps (stepPair st p)

theorem fst_foldl_stepPair : ∀ (ps : List (String × String)) (st : QuestionCounts × CountMap),
    (ps.foldl stepPair st).1 = ps.foldl (fun qc p => bumpPoll qc p.1 p.2) st.1
  | [], _ => rfl
  | p :: ps, st => by
    rw [List.foldl_cons, List.foldl_cons]
    exact fst_foldl_stepPair ps (stepPair st p)

theorem lookupN_bumpN : ∀ (nm : CountMap) (q q2 : String),
    lookupN (bumpN nm q) q2 = lookupN nm q2 + (if q = q2 then 1 else 0)
  | [], q, q2 => by
    unfold bumpN lookupN
    by_cases h : q = q2 <;> simp [h, lookupN]
  | (k, v) :: rest, q, q2 => by
    unfold bumpN
    by_cases hk : k = q
    · rw [if_pos hk]
      subst hk
      unfold lookupN
      by_cases h2 : k = q2
      · rw [if_pos h2, if_pos h2, if_pos h2]
      · rw [if_neg h2, if_neg h2, if_neg h2]
        simp
    · rw [if_neg hk]
      unfold lookupN
      by_cases h2 : k = q2
      · have hq : ¬ q = q2 := fun e => hk (h2.trans e.symm)
        rw [if_pos h2, if_pos h2, if_neg hq]
        simp
      · rw [if_neg h2, if_neg h2]
        exact lookupN_bumpN rest q q2

theorem lookupN_foldl_bumpN : ∀ (qs : List String) (nm : CountMap) (q2 : String),
    lookupN (qs.foldl bumpN nm) q2 = lookupN nm q2 + qs.countP (fun s => s == q2)
  | [], _, _ => by simp
  | q :: qs, nm, q2 => by
    rw [List.foldl_cons, lookupN_foldl_bumpN qs (bumpN nm q) q2, lookupN_bumpN,
        List.countP_cons]
    by_cases h : q = q2 <;> simp [h] <;> omega

theorem lookupN_processRow (line : List String) (st : QuestionCounts × CountMap) (q2 : String) :
    lookupN (processRow st line).2 q2 =
      lookupN st.2 q2 + (rowQuestions line).countP (fun s => s == q2) := by
  unfold processRow rowQuestions
  rw [snd_foldl_stepPair, ← List.foldl_map]
  exact lookupN_foldl_bumpN _ st.2 q2

theorem lookupN_rows : ∀ (rows : List (List String)) (st : QuestionCounts × CountMap)
    (q2 : String), lookupN ((rows.foldl processRow st).2) q2 =
      lookupN st.2 q2 + (rows.map (fun l => (rowQuestions l).countP (fun s => s == q2))).sum
  | [], _, _ => by simp
  | r :: rows, st, q2 => by
    rw [List.foldl_cons, lookupN_rows rows (processRow st r) q2, lookupN_processRow,
        List.map_cons, List.sum_cons]
    omega

theorem mem_counts {midRaw : String} {rows : List (List String)} {r : PollAnswerCount}
    (h : r ∈ read_poll_report_counts midRaw rows) :
    ∃ qm ∈ (pollState rows).1, ∃ ac ∈ qm.2,
      r = mkRow (stripDashes midRaw) (lookupN (pollState rows).2 qm.1) qm.1 ac := by
  unfold read_poll_report_counts at h
  simp only [List.mem_flatMap, List.mem_map] at h
  obtain ⟨qm, hqm, ac, hac, hr⟩ := h
  exact ⟨qm, hqm, ac, hac, hr.symm⟩

theorem count_sum_eq_countP : ∀ (rows : List (List String)) (q : String),
    (∀ line ∈ rows, (rowQuestions line).Nodup) →
    (rows.map (fun l => (rowQuestions l).countP (fun s => s == q))).sum =
      rows.countP (fun l => decide (q ∈ rowQuestions l))
  | [], _, _ => rfl
  | r :: rows, q, h => by
    rw [List.map_cons, List.sum_cons, List.countP_cons,
        count_sum_eq_countP rows q (fun l hl => h l (List.mem_cons_of_mem r hl))]
    by_cases hq : q ∈ rowQuestions r
    · rw [countP_eq_one_of_nodup (h r (List.mem_cons_self r rows)) hq]
      simp [hq]
      omega
    · rw [countP_eq_zero_of_not_mem hq]
      simp [hq]

/-- Claim C2 (amended): the per-question denominator responses is bumped
once per occurrence of the question text in a row, i.e. once per
question/answer pair mentioning it; hence the emitted responses value is
the total number of such occurrences over all rows, and it equals the
number of rows containing the question whenever no single row repeats a
question text. -/
theorem claim_C2 (midRaw : String) (rows : List (List String)) (r : PollAnswerCount)
    (hr : r ∈ read_poll_report_counts midRaw rows) :
    r.responses = (rows.map (fun l => (rowQuestions l).countP (fun s => s == r.question))).sum ∧
    ((∀ line ∈ rows, (rowQuestions line).Nodup) →
      r.responses = rows.countP (fun l => decide (r.question ∈ rowQuestions l))) := by
  obtain ⟨qm, hqm, ac, hac, rfl⟩ := mem_counts hr
  have h1 : lookupN (pollState rows).2 qm.1 =
      (rows.map (fun l => (rowQuestions l).countP (fun s => s == qm.1))).sum := by
    unfold pollState
    rw [lookupN_rows]
    simp [lookupN]
  refine ⟨h1, fun hnd => ?_⟩
  have h2 := count_sum_eq_countP rows qm.1 hnd
  show lookupN (pollState rows).2 qm.1 =
    rows.countP (fun l => decide (qm.1 ∈ rowQuestions l))
  rw [h1, h2]

/-- Counterexample to claim C2 as stated: a row that contains the same
question text in two pairs bumps that question twice, so the emitted
responses value is 2 although only one row contains the question. -/
theorem claim_C2_cex :
    (read_poll_report_counts "9" [dupQuestionRow]).map (fun r => (r.question, r.responses)) =
      [("Q1", 2), ("Q1", 2)] ∧
    [dupQuestionRow].countP (fun l => decide ("Q1" ∈ rowQuestions l)) = 1 := ⟨rfl, rfl⟩

theorem claim_C2_witness :
    (mkRow "1" 2 "Q1" ("Yes", 1)).responses =
      (exRows.map (fun l =>
        (rowQuestions l).countP (fun s => s == (mkRow "1" 2 "Q1" ("Yes", 1)).question))).sum ∧
    (mkRow "1" 2 "Q1" ("Yes", 1)).responses =
      exRows.countP (fun l => decide ((mkRow "1" 2 "Q1" ("Yes", 1)).question ∈ rowQuestions l)) := by
  have hmem : mkRow "1" 2 "Q1" ("Yes", 1) ∈ read_poll_report_counts "1" exRows := by
    rw [show read_poll_report_counts "1" exRows =
      [mkRow "1" 2 "Q1" ("Yes", 1), mkRow "1" 2 "Q1" ("No", 1), mkRow "1" 1 "Q2" ("X", 1)]
      from rfl]
    exact List.mem_cons_self _ _
  have h := claim_C2 "1" exRows _ hmem
  exact ⟨h.1, h.2 (by decide)⟩

/-! ### The sum invariant of the accumulator -/

theorem innerSum_bumpN : ∀ (m : CountMap) (a : String), innerSum (bumpN m a) = innerSum m + 1
  | [], a => by simp [bumpN, innerSum]
  | (k, v) :: rest, a => by
    unfold bumpN
    by_cases h : k = a
    · rw [if_pos h]
      unfold innerSum
      simp only [List.map_cons, List.sum_cons]
      omega
    · rw [if_neg h]
      unfold innerSum
      simp only [List.map_cons, List.sum_cons]
      have hr := innerSum_bumpN rest a
      unfold innerSum at hr
      omega

theorem pollSum_bumpPoll : ∀ (qc : QuestionCounts) (q a q2 : String),
    pollSum (bumpPoll qc q a) q2 = pollSum qc q2 + (if q = q2 then 1 else 0)
  | [], q, a, q2 => by
    by_cases h : q = q2 <;> simp [bumpPoll, pollSum, innerSum, h]
  | (k, m) :: rest, q, a, q2 => by
    unfold bumpPoll
    by_cases hk : k = q
    · rw [if_pos hk]
      subst hk
      unfold pollSum
      by_cases h2 : k = q2
      · rw [if_pos h2, if_pos h2, if_pos h2, innerSum_bumpN]
      · rw [if_neg h2, if_neg h2, if_neg h2]
        simp
    · rw [if_neg hk]
      unfold pollSum
      by_cases h2 : k = q2
      · have hq : ¬ q = q2 := fun e => hk (h2.trans e.symm)
        rw [if_pos h2, if_pos h2, if_neg hq]
        simp
      · rw [if_neg h2, if_neg h2]
        exact pollSum_bumpPoll rest q a q2

theorem keys_bumpPoll : ∀ (qc : QuestionCounts) (q a : String),
    (bumpPoll qc q a).map Prod.fst =
      if q ∈ qc.map Prod.fst then qc.map Prod.fst else qc.map Prod.fst ++ [q]
  | [], q, a => by simp [bumpPoll]
  | (k, m) :: rest, q, a => by
    unfold bumpPoll
    by_cases hk : k = q
    · subst hk
      rw [if_pos rfl]
      simp only [List.map_cons]
      rw [if_pos (List.mem_cons_self k (rest.map Prod.fst))]
    · rw [if_neg hk]
      simp only [List.map_cons]
      rw [keys_bumpPoll rest q a]
      by_cases hm : q ∈ rest.map Prod.fst
      · rw [if_pos hm, if_pos (List.mem_cons_of_mem k hm)]
      · rw [if_neg hm]
        have hnotin : q ∉ k :: rest.map Prod.fst := by
          intro hc
          rcases List.mem_cons.mp hc with h3 | h3
          · exact hk h3.symm
          · exact hm h3
        rw [if_neg hnotin]
        simp

theorem keysNodup_bumpPoll (qc : QuestionCounts) (q a : String)
    (h : (qc.map Prod.fst).Nodup) : ((bumpPoll qc q a).map Prod.fst).Nodup := by
  rw [keys_bumpPoll]
  by_cases hm : q ∈ qc.map Prod.fst
  · rw [if_pos hm]
    exact h
  · rw [if_neg hm, List.nodup_append]
    refine ⟨h, List.nodup_singleton q, ?_⟩
    intro x hx hq
    rw [List.mem_singleton] at hq
    exact hm (hq ▸ hx)

theorem vals_pos_bumpN : ∀ (m : CountMap) (a : String), (∀ ac ∈ m, 1 ≤ ac.2) →
    ∀ ac ∈ bumpN m a, 1 ≤ ac.2
  | [], a, _ => by simp [bumpN]
  | (k, v) :: rest, a, h => by
    unfold bumpN
    by_cases hk : k = a
    · rw [if_pos hk]
      intro ac hac
      rcases List.mem_cons.mp hac with rfl | hmem
      · simp
      · exact h ac (List.mem_cons_of_mem _ hmem)
    · rw [if_neg hk]
      intro ac hac
      rcases List.mem_cons.mp hac with rfl | hmem
      · exact h _ (List.mem_cons_self _ _)
      · exact vals_pos_bumpN rest a (fun x hx => h x (List.mem_cons_of_mem _ hx)) ac hmem

theorem vals_pos_bumpPoll : ∀ (qc : QuestionCounts) (q a : String),
    (∀ qm ∈ qc, ∀ ac ∈ qm.2, 1 ≤ ac.2) → ∀ qm ∈ bumpPoll qc q a, ∀ ac ∈ qm.2, 1 ≤ ac.2
  | [], q, a, _ => by
    intro qm hqm
    rw [show bumpPoll [] q a = [(q, [(a, 1)])] from rfl, List.mem_singleton] at hqm
    subst hqm
    simp
  | (k, m) :: rest, q, a, h => by
    unfold bumpPoll
    by_cases hk : k = q
    · rw [if_pos hk]
      intro qm hqm
      rcases List.mem_cons.mp hqm with rfl | hmem
      · exact vals_pos_bumpN m a (h (k, m) (List.mem_cons_self _ _))
      · exact h qm (List.mem_cons_of_mem _ hmem)
    · rw [if_neg hk]
      intro qm hqm
      rcases List.mem_cons.mp hqm with rfl | hmem
      · exact h _ (List.mem_cons_self _ _)
      · exact vals_pos_bumpPoll rest q a (fun x hx => h x (List.mem_cons_of_mem _ hx)) qm hmem

theorem stInv_stepPair : ∀ (st : QuestionCounts × CountMap) (p : String × String),
    stInv st → stInv (stepPair st p) := by
  intro st p h
  obtain ⟨h1, h2, h3⟩ := h
  refine ⟨fun q => ?_, keysNodup_bumpPoll st.1 p.1 p.2 h2, vals_pos_bumpPoll st.1 p.1 p.2 h3⟩
  show pollSum (bumpPoll st.1 p.1 p.2) q = lookupN (bumpN st.2 p.1) q
  rw [pollSum_bumpPoll, lookupN_bumpN, h1 q]

theorem stInv_pollState (rows : List (List String)) : stInv (pollState rows) := by
  have hrow : ∀ (st : QuestionCounts × CountMap) (line : List String),
      stInv st → stInv (processRow st line) := by
    intro st line h
    exact foldl_pres stInv stepPair stInv_stepPair (rowPairs line) st h
  refine foldl_pres stInv processRow hrow rows ([], []) ?_
  exact ⟨fun q => rfl, List.nodup_nil, fun qm h => absurd h (List.not_mem_nil qm)⟩

theorem pollSum_of_mem : ∀ {qc : QuestionCounts}, (qc.map Prod.fst).Nodup →
    ∀ {q : String} {m : CountMap}, (q, m) ∈ qc → pollSum qc q = innerSum m := by
  intro qc
  induction qc with
  | nil => intro _ q m hm; cases hm
  | cons qm rest ih =>
    intro hnd q m hm
    cases qm with
    | mk k mm =>
      simp only [List.map_cons] at hnd
      obtain ⟨hknotin, hnd2⟩ := List.nodup_cons.mp hnd
      rcases List.mem_cons.mp hm with heq | hmem
      · cases heq
        show pollSum ((q, m) :: rest) q = innerSum m
        unfold pollSum
        rw [if_pos rfl]
      · have hk : ¬ k = q := by
          intro e
          apply hknotin

          rw [e]
          exact List.mem_map_of_mem Prod.fst hmem
        unfold pollSum
        rw [if_neg hk]
        exact ih hnd2 hmem

theorem innerSum_pos {m : CountMap} {ac : String × Nat} (hac : ac ∈ m)
    (hpos : ∀ x ∈ m, 1 ≤ x.2) : 1 ≤ innerSum m :=
  le_trans (hpos ac hac) (List.le_sum_of_mem (List.mem_map_of_mem Prod.snd hac))

/-! ### Group structure of the aggregated output -/

theorem filter_block (mid q q1 : String) (nq : Nat) (m : CountMap) :
    (m.map (mkRow mid nq q1)).filter (fun r => r.meeting_id == mid && r.question == q) =
      if q1 = q then m.map (mkRow mid nq q1) else [] := by
  induction m with
  | nil => by_cases h : q1 = q <;> simp [h]
  | cons ac m ih =>
    simp only [List.map_cons, List.filter_cons]
    have hpred : ((mkRow mid nq q1 ac).meeting_id == mid && ((mkRow mid nq q1 ac).question == q))
        = (q1 == q) := by
      show (mid == mid && (q1 == q)) = (q1 == q)
      simp
    rw [hpred, ih]
    by_cases h : q1 = q
    · have hb : (q1 == q) = true := beq_iff_eq.mpr h
      simp [hb, h]
    · have hb : (q1 == q) = false := by simp [h]
      simp [hb, h]

theorem flatMap_single {β : Type} (f : String × CountMap → List β) :
    ∀ (qc : QuestionCounts), (qc.map Prod.fst).Nodup →
    ∀ (q : String) (m : CountMap), (q, m) ∈ qc →
    qc.flatMap (fun qm => if qm.1 = q then f qm else []) = f (q, m)
  | [], _, q, m, hm => by cases hm
  | qm :: rest, hnd, q, m, hm => by
    cases qm with
    | mk k mm =>
      simp only [List.map_cons] at hnd
      obtain ⟨hknotin, hnd2⟩ := List.nodup_cons.mp hnd
      rw [List.flatMap_cons]
      rcases List.mem_cons.mp hm with heq | hmem
      · cases heq
        rw [if_pos rfl]
        have hrest : rest.flatMap (fun qm => if qm.1 = q then f qm else []) = [] := by
          apply flatMap_nil
          intro x hx
          have hne : ¬ x.1 = q := by
            intro e
            apply hknotin
            rw [← e]
            exact List.mem_map_of_mem Prod.fst hx
          rw [if_neg hne]
        rw [hrest, List.append_nil]
      · have hk : ¬ k = q := by
          intro e
          apply hknotin
          rw [e]
          exact List.mem_map_of_mem Prod.fst hmem
        rw [if_neg hk, List.nil_append]
        exact flatMap_single f rest hnd2 q m hmem

theorem groupRows_counts (midRaw : String) (rows : List (List String)) (q : String)
    (m : CountMap) (hqm : (q, m) ∈ (pollState rows).1) :
    groupRows (read_poll_report_counts midRaw rows) (stripDashes midRaw) q =
      m.map (mkRow (stripDashes midRaw) (lookupN (pollState rows).2 q) q) := by
  obtain ⟨hsum, hnd, hpos⟩ := stInv_pollState rows
  unfold groupRows read_poll_report_counts
  rw [filter_flatMap]
  have hblocks : ∀ qm ∈ (pollState rows).1,
      ((qm.2.map (mkRow (stripDashes midRaw) (lookupN (pollState rows).2 qm.1) qm.1)).filter
        (fun r => r.meeting_id == stripDashes midRaw && r.question == q)) =
      (if qm.1 = q then
        qm.2.map (mkRow (stripDashes midRaw) (lookupN (pollState rows).2 qm.1) qm.1)
       else []) := by
    intro qm _
    rw [filter_block]
  rw [flatMap_congr hblocks]
  exact flatMap_single
    (fun qm => qm.2.map (mkRow (stripDashes midRaw) (lookupN (pollState rows).2 qm.1) qm.1))
    (pollState rows).1 hnd q m hqm

theorem sum_div_list : ∀ (l : List ℚ) (d : ℚ), (l.map (fun x => x / d)).sum = l.sum / d
  | [], d => by simp
  | x :: l, d => by
    rw [List.map_cons, List.sum_cons, List.sum_cons, sum_div_list l d, add_div]

theorem counts_group_count (mid q : String) (nq : Nat) (m : CountMap) :
    ((m.map (mkRow mid nq q)).map (fun r => r.count)).sum = innerSum m := by
  rw [List.map_map]
  rfl

theorem counts_group_prop (mid q : String) (nq : Nat) (m : CountMap) :
    ((m.map (mkRow mid nq q)).map (fun r => r.prop)).sum = (innerSum m : ℚ) / (nq : ℚ) := by
  rw [List.map_map]
  have h1 : ((fun r => PollAnswerCount.prop r) ∘ mkRow mid nq q) =
      fun ac => ((ac.2 : ℚ) / (nq : ℚ)) := rfl
  have h2 : m.map (fun ac => ((ac.2 : ℚ) / (nq : ℚ))) =
      (m.map (fun ac => (ac.2 : ℚ))).map (fun x => x / (nq : ℚ)) := by
    rw [List.map_map]
    rfl
  rw [h1, h2, sum_div_list]
  congr 1
  unfold innerSum
  rw [Nat.cast_list_sum, List.map_map]
  rfl

/-- Per-file group sums: within the table of one poll report, every
(meeting_id, question) group sums count to responses and prop to 1. -/
theorem counts_group (midRaw : String) (rows : List (List String)) (r : PollAnswerCount)
    (hr : r ∈ read_poll_report_counts midRaw rows) :
    groupCountSum (read_poll_report_counts midRaw rows) r.meeting_id r.question =
      r.responses ∧
    groupPropSum (read_poll_report_counts midRaw rows) r.meeting_id r.question = 1 := by
  obtain ⟨qm, hqm, ac, hac, rfl⟩ := mem_counts hr
  cases qm with
  | mk q m =>
    obtain ⟨hsum, hnd, hpos⟩ := stInv_pollState rows
    have hNq : lookupN (pollState rows).2 q = innerSum m := by
      rw [← hsum q]
      exact pollSum_of_mem hnd hqm
    have hposm : 1 ≤ innerSum m := innerSum_pos hac (hpos (q, m) hqm)
    show groupCountSum (read_poll_report_counts midRaw rows) (stripDashes midRaw) q =
        lookupN (pollState rows).2 q ∧
      groupPropSum (read_poll_report_counts midRaw rows) (stripDashes midRaw) q = 1
    unfold groupCountSum groupPropSum
    rw [groupRows_counts midRaw rows q m hqm]
    constructor
    · rw [counts_group_count, hNq]
    · rw [counts_group_prop, hNq, div_self]
      exact Nat.cast_ne_zero.mpr (by omega)

theorem counts_mid (midRaw : String) (rows : List (List String)) (r : PollAnswerCount)
    (hr : r ∈ read_poll_report_counts midRaw rows) : r.meeting_id = stripDashes midRaw := by
  obtain ⟨qm, hqm, ac, hac, rfl⟩ := mem_counts hr
  rfl

theorem groupRows_append (t1 t2 : List PollAnswerCount) (mid q : String) :
    groupRows (t1 ++ t2) mid q = groupRows t1 mid q ++ groupRows t2 mid q :=
  List.filter_append _ _

theorem groupRows_nil_of_mid {t : List PollAnswerCount} {mid q : String}
    (h : ∀ r ∈ t, r.meeting_id ≠ mid) : groupRows t mid q = [] := by
  unfold groupRows
  rw [List.filter_eq_nil_iff]
  intro r hr hc
  rw [Bool.and_eq_true, beq_iff_eq, beq_iff_eq] at hc
  exact h r hr hc.1

theorem groupRows_corpus : ∀ (files : List (String × List (List String))),
    (files.map (fun f => stripDashes f.1)).Nodup →
    ∀ f₀ ∈ files, ∀ (q : String),
    groupRows (files.flatMap (fun f => read_poll_report_counts f.1 f.2))
        (stripDashes f₀.1) q =
      groupRows (read_poll_report_counts f₀.1 f₀.2) (stripDashes f₀.1) q
  | [], _, f₀, hf₀, q => by cases hf₀
  | f :: files, hnd, f₀, hf₀, q => by
    simp only [List.map_cons] at hnd
    obtain ⟨hnotin, hnd2⟩ := List.nodup_cons.mp hnd
    rw [List.flatMap_cons, groupRows_append]
    rcases List.mem_cons.mp hf₀ with rfl | hmem
    · have htail : groupRows (files.flatMap (fun g => read_poll_report_counts g.1 g.2))
          (stripDashes f₀.1) q = [] := by
        apply groupRows_nil_of_mid
        intro r hr
        rw [List.mem_flatMap] at hr
        obtain ⟨g, hg, hrg⟩ := hr
        rw [counts_mid g.1 g.2 r hrg]
        intro e
        apply hnotin
        rw [← e]
        exact List.mem_map_of_mem (fun f => stripDashes f.1) hg
      rw [htail, List.append_nil]
    · have hhead : groupRows (read_poll_report_counts f.1 f.2) (stripDashes f₀.1) q = [] := by
        apply groupRows_nil_of_mid
        intro r hr
        rw [counts_mid f.1 f.2 r hr]
        intro e
        apply hnotin
        rw [e]
        exact List.mem_map_of_mem (fun f => stripDashes f.1) hmem
      rw [hhead, List.nil_append]
      exact groupRows_corpus files hnd2 f₀ hmem q

theorem groupSums_perm {t1 t2 : List PollAnswerCount} (h : t1.Perm t2) (mid q : String) :
    groupCountSum t1 mid q = groupCountSum t2 mid q ∧
    groupPropSum t1 mid q = groupPropSum t2 mid q := by
  have hf : (groupRows t1 mid q).Perm (groupRows t2 mid q) := h.filter _
  exact ⟨(hf.map _).sum_eq, (hf.map _).sum_eq⟩

/-- Claim C1 (amended): in the table of one poll report, and in any
corpus whose reports carry pairwise distinct (dash-stripped) meeting ids,
every (meeting_id, question) group sums its count column to that group's
responses value and its prop column to exactly 1, hence within the 1e-9
tolerance.  When two reports of a corpus share a meeting id the
corpus-level sums can fail (see the counterexample). -/
theorem claim_C1 :
    (∀ (midRaw : String) (rows : List (List String)) (r : PollAnswerCount),
      r ∈ read_poll_report_counts midRaw rows →
      groupCountSum (read_poll_report_counts midRaw rows) r.meeting_id r.question =
        r.responses ∧
      groupPropSum (read_poll_report_counts midRaw rows) r.meeting_id r.question = 1 ∧
      |groupPropSum (read_poll_report_counts midRaw rows) r.meeting_id r.question - 1| <
        1 / 1000000000) ∧
    (∀ (files : List (String × List (List String))) (r : PollAnswerCount),
      (files.map (fun f => stripDashes f.1)).Nodup →
      r ∈ (read_all_poll_report_counts files).rows →
      groupCountSum (read_all_poll_report_counts files).rows r.meeting_id r.question =
        r.responses ∧
      groupPropSum (read_all_poll_report_counts files).rows r.meeting_id r.question = 1) := by
  constructor
  · intro midRaw rows r hr
    obtain ⟨h1, h2⟩ := counts_group midRaw rows r hr
    refine ⟨h1, h2, ?_⟩
    rw [h2]
    norm_num
  · intro files r hnd hr
    have hperm : ((read_all_poll_report_counts files).rows).Perm
        (files.flatMap (fun f => read_poll_report_counts f.1 f.2)) :=
      List.perm_insertionSort pacLe _
    have hmem : r ∈ files.flatMap (fun f => read_poll_report_counts f.1 f.2) :=
      hperm.mem_iff.mp hr
    rw [List.mem_flatMap] at hmem
    obtain ⟨f₀, hf₀, hrf⟩ := hmem
    have hmid : r.meeting_id = stripDashes f₀.1 := counts_mid f₀.1 f₀.2 r hrf
    obtain ⟨hc, hp⟩ := groupSums_perm hperm r.meeting_id r.question
    rw [hc, hp, hmid]
    have hq := groupRows_corpus files hnd f₀ hf₀ r.question
    unfold groupCountSum groupPropSum
    rw [hq]
    obtain ⟨h1, h2⟩ := counts_group f₀.1 f₀.2 r hrf
    rw [hmid] at h1 h2
    unfold groupCountSum at h1
    unfold groupPropSum at h2
    exact ⟨h1, h2⟩

/-- Counterexample to the corpus half of claim C1 as stated: two reports
sharing meeting id 123 and the single answer (Q1, Yes) produce a corpus
whose (123, Q1) group sums count to 2, while each of its rows carries
responses = 1 (so the prop column of the group sums to 2, not 1). -/
theorem claim_C1_cex :
    groupCountSum (read_all_poll_report_counts [("123", [oneRow]), ("123", [oneRow])]).rows
      "123" "Q1" = 2 ∧
    (read_all_poll_report_counts [("123", [oneRow]), ("123", [oneRow])]).rows.map
      (fun r => (r.meeting_id, r.question, r.responses)) =
      [("123", "Q1", 1), ("123", "Q1", 1)] := ⟨rfl, rfl⟩

theorem claim_C1_witness :
    groupCountSum (read_poll_report_counts "1" exRows) "1" "Q1" = 2 ∧
    groupPropSum (read_poll_report_counts "1" exRows) "1" "Q1" = 1 := by
  have hmem : mkRow "1" 2 "Q1" ("Yes", 1) ∈ read_poll_report_counts "1" exRows := by
    rw [show read_poll_report_counts "1" exRows = [mkRow "1" 2 "Q1" ("Yes", 1),
      mkRow "1" 2 "Q1" ("No", 1), mkRow "1" 1 "Q2" ("X", 1)] from rfl]
    exact List.mem_cons_self _ _
  have h := claim_C1.1 "1" exRows (mkRow "1" 2 "Q1" ("Yes", 1)) hmem
  exact ⟨h.1, h.2.1⟩

/-! ### The performance reader and the empty corpora -/

/-- Claim C7: empty input folders yield zero-row frames that still carry
the exact column schemas of the three corpus loaders, with no error. -/
theorem claim_C7 :
    read_all_performance_reports [] =
      some ⟨["topic", "meeting_id", "datetime", "duration", "registered", "attended",
             "attendance_rate", "questions", "date_str"], []⟩ ∧
    read_all_poll_reports [] =
      some ⟨["meeting_id", "row_no", "name", "email", "datetime", "question", "answer"], []⟩ ∧
    read_all_poll_report_counts [] =
      ⟨["meeting_id", "question", "answer", "count", "prop", "responses"], []⟩ :=
  ⟨rfl, rfl, rfl⟩

theorem read_perf_rate (g : List (List String)) (rec : MeetingRecord)
    (h : read_performance_report g = some rec) :
    ∃ rateS pct, cell? g 6 2 = some rateS ∧ parseDecimal? rateS = some pct ∧
      rec.attendance_rate = pct / 100 := by
  unfold read_performance_report at h
  have step : ∀ {α β : Type} {x : Option α} {f : α → Option β} {b : β},
      x.bind f = some b → ∃ a, x = some a ∧ f a = some b :=
    fun hx => Option.bind_eq_some.mp hx
  obtain ⟨topic, h1, h⟩ := step h
  obtain ⟨midRaw, h2, h⟩ := step h
  obtain ⟨dtS, h3, h⟩ := step h
  obtain ⟨durS, h4, h⟩ := step h
  obtain ⟨regS, h5, h⟩ := step h
  obtain ⟨attS, h6, h⟩ := step h
  obtain ⟨rateS, h7, h⟩ := step h
  obtain ⟨quS, h8, h⟩ := step h
  obtain ⟨duration, h9, h⟩ := step h
  obtain ⟨registered, h10, h⟩ := step h
  obtain ⟨attended, h11, h⟩ := step h
  obtain ⟨pct, h12, h⟩ := step h
  obtain ⟨questions, h13, h⟩ := step h
  obtain ⟨dt, h14, h⟩ := step h
  refine ⟨rateS, pct, h7, h12, ?_⟩
  rw [← Option.some.inj h]

/-- Claim C6 (amended): the attendance rate is a pure passthrough of the
rate cell divided by 100, so it lies in [0, 1] exactly when the exported
percentage lies in [0, 100]; and attended ≤ registered is not enforced:
a grid with attended greater than registered parses without error.  The
code does not itself guarantee attendance_rate ≤ 1 (see the
counterexample with a rate cell of 150). -/
theorem claim_C6 :
    (∀ (g : List (List String)) (rec : MeetingRecord),
      read_performance_report g = some rec →
      ∃ rateS pct, cell? g 6 2 = some rateS ∧ parseDecimal? rateS = some pct ∧
        rec.attendance_rate = pct / 100 ∧
        (0 ≤ pct → pct ≤ 100 → 0 ≤ rec.attendance_rate ∧ rec.attendance_rate ≤ 1)) ∧
    (∃ rec : MeetingRecord, read_performance_report perfGridBad = some rec ∧
      rec.registered < rec.attended) := by
  constructor
  · intro g rec h
    obtain ⟨rateS, pct, hc, hp, hrate⟩ := read_perf_rate g rec h
    refine ⟨rateS, pct, hc, hp, hrate, fun h0 h100 => ?_⟩
    rw [hrate]
    constructor
    · exact div_nonneg h0 (by norm_num)
    · rw [div_le_one (by norm_num : (0 : ℚ) < 100)]
      exact h100
  · refine ⟨⟨"Topic", "123456789", ⟨2021, 1, 5, 10, 30, 0⟩, 60, 10, 50,
      ((150 : Nat) : ℚ) / 100, 3, "05.01."⟩, rfl, ?_⟩
    decide

/-- Counterexample to the [0, 1] half of claim C6 as stated: the reader
accepts a rate cell of 150 (which is exactly what Zoom would export when
attended exceeds registered) and returns attendance_rate 1.5. -/
theorem claim_C6_cex :
    read_performance_report perfGridBad =
      some ⟨"Topic", "123456789", ⟨2021, 1, 5, 10, 30, 0⟩, 60, 10, 50,
            ((150 : Nat) : ℚ) / 100, 3, "05.01."⟩ ∧
    ((150 : Nat) : ℚ) / 100 = 3 / 2 ∧ ¬ (((150 : Nat) : ℚ) / 100 ≤ 1) := by
  refine ⟨rfl, ?_, ?_⟩ <;> norm_num

theorem claim_C6_witness :
    ∃ rec : MeetingRecord, read_performance_report perfGridOk = some rec ∧
      ∃ rateS pct, cell? perfGridOk 6 2 = some rateS ∧ parseDecimal? rateS = some pct ∧
        rec.attendance_rate = pct / 100 ∧
        (0 ≤ pct → pct ≤ 100 → 0 ≤ rec.attendance_rate ∧ rec.attendance_rate ≤ 1) := by
  refine ⟨⟨"Topic", "123456789", ⟨2021, 1, 5, 10, 30, 0⟩, 60, 100, 50,
      ((50 : Nat) : ℚ) / 100, 3, "05.01."⟩, rfl, ?_⟩
  exact claim_C6.1 perfGridOk _ rfl

/-! ### Chart-rendering validation -/

/-- Claim C8 (amended): only the stacked renderer validates a given
answer_sort: it raises the descriptive ValueError naming the question and
the observed answers whenever some observed answer is omitted, before any
rendering call; the line renderer plot_question_bokeh performs no such
check and silently restricts the plotted series (see the
counterexample). -/
theorem claim_C8 :
    (∀ (polldata : List PollAnswerCount) (question : String) (srt : List String),
      (∃ v ∈ uniqueAnswers polldata question, v ∉ srt) →
      plot_question_stacked_bokeh polldata question (some srt) =
        PlotOutcome.raises (answerSortError question (uniqueAnswers polldata question))) ∧
    plot_question_stacked_bokeh exPlotData "Q1" (some ["A"]) =
      PlotOutcome.raises (answerSortError "Q1" ["A", "B"]) ∧
    uniqueAnswers exPlotData "Q1" = ["A", "B"] := by
  refine ⟨?_, rfl, rfl⟩
  intro polldata question srt hv
  obtain ⟨v, hv, hnot⟩ := hv
  have hall : (uniqueAnswers polldata question).all (fun x => decide (x ∈ srt)) = false := by
    rw [List.all_eq_false]
    exact ⟨v, hv, by simpa using hnot⟩
  show (if (uniqueAnswers polldata question).all (fun x => decide (x ∈ srt)) then
      PlotOutcome.renders srt
    else PlotOutcome.raises (answerSortError question (uniqueAnswers polldata question))) = _
  rw [hall]
  rfl

/-- Counterexample to claim C8 as stated: the non-stacked renderer
plot_question_bokeh, given answer_sort = [A] while the observed answers
for the question are [A, B], raises nothing and silently renders only the
series A. -/
theorem claim_C8_cex :
    plot_question_bokeh exPlotData "Q1" (some ["A"]) = PlotOutcome.renders ["A"] ∧
    uniqueAnswers exPlotData "Q1" = ["A", "B"] := ⟨rfl, rfl⟩

theorem claim_C8_witness :
    plot_question_stacked_bokeh exPlotData "Q1" (some ["B", "A", "C"]) =
      PlotOutcome.renders ["B", "A", "C"] ∧
    plot_question_stacked_bokeh exPlotData "Q1" (some ["B"]) =
      PlotOutcome.raises (answerSortError "Q1" (uniqueAnswers exPlotData "Q1")) := by
  refine ⟨rfl, ?_⟩
  exact claim_C8.1 exPlotData "Q1" ["B"] ⟨"A", by decide, by decide⟩

/-! ### Corpus determinism and the sort relations -/

theorem charListLt_irrefl : ∀ l : List Char, charListLt l l = false
  | [] => rfl
  | a :: as => by
    unfold charListLt
    rw [if_neg (lt_irrefl a), if_neg (lt_irrefl a)]
    exact charListLt_irrefl as

theorem charListLt_trans : ∀ {l1 l2 l3 : List Char}, charListLt l1 l2 = true →
    charListLt l2 l3 = true → charListLt l1 l3 = true
  | [], l2, l3, h1, h2 => by
    cases l3 with
    | nil =>
      cases l2 with
      | nil => exact absurd h2 (by simp [charListLt])
      | cons b bs => exact absurd h2 (by simp [charListLt])
    | cons c cs => rfl
  | a :: as, l2, l3, h1, h2 => by
    cases l2 with
    | nil => exact absurd h1 (by simp [charListLt])
    | cons b bs =>
      cases l3 with
      | nil => exact absurd h2 (by simp [charListLt])
      | cons c cs =>
        unfold charListLt at h1 h2 ⊢
        by_cases hab : a < b
        · rw [if_pos hab] at h1
          by_cases hbc : b < c
          · rw [if_pos (lt_trans hab hbc)]
          · rw [if_neg hbc] at h2
            by_cases hcb : c < b
            · rw [if_pos hcb] at h2
              exact absurd h2 (by simp)
            · have hbc2 : b = c := le_antisymm (not_lt.mp hcb) (not_lt.mp hbc)
              subst hbc2
              rw [if_pos hab]
        · rw [if_neg hab] at h1
          by_cases hba : b < a
          · rw [if_pos hba] at h1
            exact absurd h1 (by simp)
          · rw [if_neg hba] at h1
            have hab2 : a = b := le_antisymm (not_lt.mp hba) (not_lt.mp hab)
            subst hab2
            by_cases hac : a < c
            · rw [if_pos hac]
            · rw [if_neg hac] at h2 ⊢
              by_cases hca : c < a
              · rw [if_pos hca] at h2
                exact absurd h2 (by simp)
              · rw [if_neg hca] at h2 ⊢
                exact charListLt_trans h1 h2

theorem charListLt_conn : ∀ {l1 l2 : List Char}, charListLt l1 l2 = false →
    charListLt l2 l1 = false → l1 = l2
  | [], [], _, _ => rfl
  | [], b :: bs, h1, _ => absurd h1 (by simp [charListLt])
  | a :: as, [], _, h2 => absurd h2 (by simp [charListLt])
  | a :: as, b :: bs, h1, h2 => by
    unfold charListLt at h1 h2
    by_cases hab : a < b
    · rw [if_pos hab] at h1
      exact absurd h1 (by simp)
    · rw [if_neg hab] at h1
      by_cases hba : b < a
      · rw [if_pos hba] at h2
        exact absurd h2 (by simp)
      · rw [if_neg hba] at h1
        rw [if_neg hba, if_neg hab] at h2
        have h : a = b := le_antisymm (not_lt.mp hba) (not_lt.mp hab)
        subst h
        rw [charListLt_conn h1 h2]

theorem qaLe_refl (x : String × String) : qaLe x x := Or.inr ⟨rfl, Or.inr rfl⟩

theorem qaLe_total (x y : String × String) : qaLe x y ∨ qaLe y x := by
  cases h1 : charListLt x.1.data y.1.data with
  | true => exact Or.inl (Or.inl h1)
  | false =>
    cases h2 : charListLt y.1.data x.1.data with
    | true => exact Or.inr (Or.inl h2)
    | false =>
      have hq : x.1 = y.1 := congrArg String.mk (charListLt_conn h1 h2)
      cases h3 : charListLt x.2.data y.2.data with
      | true => exact Or.inl (Or.inr ⟨hq, Or.inl h3⟩)
      | false =>
        cases h4 : charListLt y.2.data x.2.data with
        | true => exact Or.inr (Or.inr ⟨hq.symm, Or.inl h4⟩)
        | false =>
          exact Or.inl (Or.inr ⟨hq, Or.inr (congrArg String.mk (charListLt_conn h3 h4))⟩)

theorem qaLe_trans {x y z : String × String} (h1 : qaLe x y) (h2 : qaLe y z) : qaLe x z := by
  rcases h1 with h1 | ⟨hq1, h1⟩
  · rcases h2 with h2 | ⟨hq2, h2⟩
    · exact Or.inl (charListLt_trans h1 h2)
    · refine Or.inl ?_
      rw [← hq2]
      exact h1
  · rcases h2 with h2 | ⟨hq2, h2⟩
    · refine Or.inl ?_
      rw [hq1]
      exact h2
    · refine Or.inr ⟨hq1.trans hq2, ?_⟩
      rcases h1 with h1 | ha1
      · rcases h2 with h2 | ha2
        · exact Or.inl (charListLt_trans h1 h2)
        · refine Or.inl ?_
          rw [← ha2]
          exact h1
      · rcases h2 with h2 | ha2
        · refine Or.inl ?_
          rw [ha1]
          exact h2
        · exact Or.inr (ha1.trans ha2)

theorem qaLe_antisymm {x y : String × String} (h1 : qaLe x y) (h2 : qaLe y x) : x = y := by
  rcases h1 with h1 | ⟨hq1, h1⟩
  · rcases h2 with h2 | ⟨hq2, h2⟩
    · have h := charListLt_trans h1 h2
      rw [charListLt_irrefl] at h
      exact Bool.noConfusion h
    · rw [hq2, charListLt_irrefl] at h1
      exact Bool.noConfusion h1
  · rcases h2 with h2 | ⟨hq2, h2⟩
    · rw [hq1, charListLt_irrefl] at h2
      exact Bool.noConfusion h2
    · rcases h1 with h1 | ha1
      · rcases h2 with h2 | ha2
        · have h := charListLt_trans h1 h2
          rw [charListLt_irrefl] at h
          exact Bool.noConfusion h
        · rw [ha2, charListLt_irrefl] at h1
          exact Bool.noConfusion h1
      · exact Prod.ext hq1 ha1

theorem sorted_nodup_key_eq {α κ : Type} (key : α → κ) (le : κ → κ → Prop)
    (hrefl : ∀ a, le a a) (hanti : ∀ a b, le a b → le b a → a = b) :
    ∀ (l₁ l₂ : List α), l₁.Perm l₂ →
      l₁.Sorted (fun x y => le (key x) (key y)) →
      l₂.Sorted (fun x y => le (key x) (key y)) →
      (l₁.map key).Nodup → l₁ = l₂
  | [], l₂, hp, _, _, _ => hp.nil_eq
  | x :: xs, l₂, hp, hs₁, hs₂, hnd => by
    cases l₂ with
    | nil => exact absurd hp.eq_nil (by simp)
    | cons y ys =>
      have hx2 : x ∈ y :: ys := hp.mem_iff.mp (List.mem_cons_self x xs)
      have hy1 : y ∈ x :: xs := hp.mem_iff.mpr (List.mem_cons_self y ys)
      have hyx : le (key y) (key x) := by
        rcases List.mem_cons.mp hx2 with heq | hx2
        · rw [heq]
          exact hrefl _
        · exact (List.sorted_cons.mp hs₂).1 x hx2
      have hxy : le (key x) (key y) := by
        rcases List.mem_cons.mp hy1 with heq | hy1
        · rw [heq]
          exact hrefl _
        · exact (List.sorted_cons.mp hs₁).1 y hy1
      have hkey : key x = key y := hanti _ _ hxy hyx
      have hnd2 : (key x :: xs.map key).Nodup := by simpa using hnd
      have hyx2 : y = x := by
        rcases List.mem_cons.mp hy1 with heq | hy1
        · exact heq
        · exact absurd (hkey ▸ List.mem_map_of_mem key hy1) (List.nodup_cons.mp hnd2).1
      subst hyx2
      rw [sorted_nodup_key_eq key le hrefl hanti xs ys hp.cons_inv
          (List.sorted_cons.mp hs₁).2 (List.sorted_cons.mp hs₂).2 (List.nodup_cons.mp hnd2).2]

theorem collectPerf_append : ∀ (s t : List (List (List String))),
    collectPerf (s ++ t) =
      (collectPerf s).bind (fun ls => (collectPerf t).map (fun lt => ls ++ lt))
  | [], t => by
    show collectPerf t = (some []).bind (fun ls => (collectPerf t).map (fun lt => ls ++ lt))
    cases hc : collectPerf t with
    | none => rfl
    | some l =>
      show some l = some ([] ++ l)
      rw [List.nil_append]
  | g :: s, t => by
    have ih := collectPerf_append s t
    cases hg : read_performance_report g <;> cases hs : collectPerf s <;>
      cases ht : collectPerf t <;>
      simp [collectPerf, hg, hs, ht, ih]

theorem collectPerf_perm : ∀ (f₁ f₂ : List (List (List String))), f₁.Perm f₂ →
    ∀ (l₁ l₂ : List MeetingRecord),
    collectPerf f₁ = some l₁ → collectPerf f₂ = some l₂ → l₁.Perm l₂
  | [], f₂, hp, l₁, l₂, h1, h2 => by
    have hn : f₂ = [] := hp.symm.eq_nil
    subst hn
    obtain rfl : [] = l₁ := Option.some.inj h1
    obtain rfl : [] = l₂ := Option.some.inj h2
    exact List.Perm.nil
  | g :: t₁, f₂, hp, l₁, l₂, h1, h2 => by
    have hg : g ∈ f₂ := hp.mem_iff.mp (List.mem_cons_self g t₁)
    obtain ⟨pre, post, rfl⟩ := List.append_of_mem hg
    have hp2 : t₁.Perm (pre ++ post) := (hp.trans List.perm_middle).cons_inv
    have hu : collectPerf (g :: t₁) =
        (match read_performance_report g, collectPerf t₁ with
          | some r, some rs => some (r :: rs)
          | _, _ => none) := rfl
    rw [hu] at h1
    cases hr : read_performance_report g with
    | none =>
      rw [hr] at h1
      exact Option.noConfusion h1
    | some r =>
      rw [hr] at h1
      cases hc1 : collectPerf t₁ with
      | none =>
        rw [hc1] at h1
        exact Option.noConfusion h1
      | some m =>
        rw [hc1] at h1
        obtain rfl : r :: m = l₁ := Option.some.inj h1
        rw [collectPerf_append] at h2
        cases hps : collectPerf pre with
        | none =>
          rw [hps] at h2
          exact Option.noConfusion h2
        | some ls =>
          rw [hps] at h2
          have hu2 : collectPerf (g :: post) =
              (match read_performance_report g, collectPerf post with
                | some r, some rs => some (r :: rs)
                | _, _ => none) := rfl
          rw [show ((some ls).bind
              (fun ls => (collectPerf (g :: post)).map (fun lt => ls ++ lt))) =
            (collectPerf (g :: post)).map (fun lt => ls ++ lt) from rfl, hu2, hr] at h2
          cases hcp : collectPerf post with
          | none =>
            rw [hcp] at h2
            exact Option.noConfusion h2
          | some lt =>
            rw [hcp] at h2
            obtain rfl : ls ++ (r :: lt) = l₂ := Option.some.inj h2
            have hcol : collectPerf (pre ++ post) = some (ls ++ lt) := by
              rw [collectPerf_append, hps, hcp]
              rfl
            have hm : m.Perm (ls ++ lt) := collectPerf_perm t₁ (pre ++ post) hp2 m (ls ++ lt)
              hc1 hcol
            exact (hm.cons r).trans List.perm_middle.symm

/-- Claim C9 (amended): corpus loading is a pure function of the file
list, and the loaded table is independent of the enumeration order
provided the sort keys are pairwise distinct: (question, answer) for the
aggregated poll corpus, the parsed datetime for the performance corpus.
On tied sort keys the sorted output keeps enumeration order, so tables
loaded under different enumeration orders can differ (see the
counterexample). -/
theorem claim_C9 :
    (∀ (files₁ files₂ : List (String × List (List String))),
      files₁.Perm files₂ →
      (((read_all_poll_report_counts files₁).rows).map
        (fun r => (r.question, r.answer))).Nodup →
      read_all_poll_report_counts files₁ = read_all_poll_report_counts files₂) ∧
    (∀ (files₁ files₂ : List (List (List String))) (t₁ t₂ : PerfTable),
      files₁.Perm files₂ →
      read_all_performance_reports files₁ = some t₁ →
      read_all_performance_reports files₂ = some t₂ →
      (t₁.rows.map (fun r => dtKey r.datetime)).Nodup →
      t₁ = t₂) := by
  constructor
  · intro files₁ files₂ hp hnd
    unfold read_all_poll_report_counts
    congr 1
    have hj : (files₁.flatMap (fun f => read_poll_report_counts f.1 f.2)).Perm
        (files₂.flatMap (fun f => read_poll_report_counts f.1 f.2)) :=
      hp.flatMap_right _
    haveI : IsTotal PollAnswerCount pacLe := ⟨fun x y => qaLe_total _ _⟩
    haveI : IsTrans PollAnswerCount pacLe := ⟨fun x y z => qaLe_trans⟩
    apply sorted_nodup_key_eq (fun r => (r.question, r.answer)) qaLe qaLe_refl
      (fun a b => qaLe_antisymm)
    · exact ((List.perm_insertionSort pacLe _).trans hj).trans
        (List.perm_insertionSort pacLe _).symm
    · exact List.sorted_insertionSort pacLe _
    · exact List.sorted_insertionSort pacLe _
    · exact hnd
  · intro files₁ files₂ t₁ t₂ hp h1 h2 hnd
    unfold read_all_performance_reports at h1 h2
    cases hc1 : collectPerf files₁ with
    | none =>
      rw [hc1] at h1
      exact Option.noConfusion h1
    | some l₁ =>
      rw [hc1] at h1
      cases hc2 : collectPerf files₂ with
      | none =>
        rw [hc2] at h2
        exact Option.noConfusion h2
      | some l₂ =>
        rw [hc2] at h2
        obtain rfl : (⟨perfCols, List.insertionSort mrLe l₁⟩ : PerfTable) = t₁ :=
          Option.some.inj h1
        obtain rfl : (⟨perfCols, List.insertionSort mrLe l₂⟩ : PerfTable) = t₂ :=
          Option.some.inj h2
        have hl : l₁.Perm l₂ := collectPerf_perm files₁ files₂ hp l₁ l₂ hc1 hc2
        congr 1
        haveI : IsTotal MeetingRecord mrLe := ⟨fun x y => Nat.le_total _ _⟩
        haveI : IsTrans MeetingRecord mrLe := ⟨fun x y z hxy hyz => Nat.le_trans hxy hyz⟩
        apply sorted_nodup_key_eq (fun r => dtKey r.datetime) (fun a b => a ≤ b)
          (fun a => Nat.le_refl a) (fun a b => Nat.le_antisymm)
        · exact ((List.perm_insertionSort mrLe _).trans hl).trans
            (List.perm_insertionSort mrLe _).symm
        · exact List.sorted_insertionSort mrLe _
        · exact List.sorted_insertionSort mrLe _
        · exact hnd

/-- Counterexample to claim C9 as stated: two poll files carry the same
(question, answer) sort key with different meeting ids; the two
enumeration orders are permutations of each other, yet the loaded tables
differ, because rows tied on the sort key stay in enumeration order. -/
theorem claim_C9_cex :
    [("111", [oneRow]), ("222", [oneRow])].Perm [("222", [oneRow]), ("111", [oneRow])] ∧
    read_all_poll_report_counts [("111", [oneRow]), ("222", [oneRow])] ≠
      read_all_poll_report_counts [("222", [oneRow]), ("111", [oneRow])] := by
  constructor
  · decide
  · intro h
    have h2 : (read_all_poll_report_counts [("111", [oneRow]), ("222", [oneRow])]).rows.map
        (fun r => r.meeting_id) =
      (read_all_poll_report_counts [("222", [oneRow]), ("111", [oneRow])]).rows.map
        (fun r => r.meeting_id) := by rw [h]
    have e1 : (read_all_poll_report_counts [("111", [oneRow]), ("222", [oneRow])]).rows.map
        (fun r => r.meeting_id) = ["111", "222"] := rfl
    have e2 : (read_all_poll_report_counts [("222", [oneRow]), ("111", [oneRow])]).rows.map
        (fun r => r.meeting_id) = ["222", "111"] := rfl
    rw [e1, e2] at h2
    exact absurd h2 (by decide)

theorem claim_C9_witness :
    read_all_poll_report_counts [("111", [oneRow]), ("222", [rowQ2])] =
      read_all_poll_report_counts [("222", [rowQ2]), ("111", [oneRow])] ∧
    read_all_performance_reports [perfGridOk, perfGridOk2] =
      read_all_performance_reports [perfGridOk2, perfGridOk] := by
  constructor
  · exact claim_C9.1 _ _ (by decide) (by decide)
  · have h1 : read_all_performance_reports [perfGridOk, perfGridOk2] =
        some ⟨perfCols, [⟨"Topic", "123456789", ⟨2021, 1, 5, 10, 30, 0⟩, 60, 100, 50,
          ((50 : Nat) : ℚ) / 100, 3, "05.01."⟩,
          ⟨"Topic", "123456789", ⟨2021, 1, 6, 10, 30, 0⟩, 60, 100, 50,
          ((50 : Nat) : ℚ) / 100, 3, "06.01."⟩]⟩ := rfl
    have h2 : read_all_performance_reports [perfGridOk2, perfGridOk] =
        some ⟨perfCols, [⟨"Topic", "123456789", ⟨2021, 1, 5, 10, 30, 0⟩, 60, 100, 50,
          ((50 : Nat) : ℚ) / 100, 3, "05.01."⟩,
          ⟨"Topic", "123456789", ⟨2021, 1, 6, 10, 30, 0⟩, 60, 100, 50,
          ((50 : Nat) : ℚ) / 100, 3, "06.01."⟩]⟩ := rfl
    exact (h1.trans (congrArg some (claim_C9.2 [perfGridOk, perfGridOk2]
      [perfGridOk2, perfGridOk] _ _ (by decide) h1 h2 (by decide)))).trans h2.symm

end ZoomExport
